import Mathlib

/-!
Shallow embedding of the Puppet provisioner (provisioner.go) and proofs
about it.

The Go source has one nontrivial file, `provisioner/puppet/provisioner.go`,
holding:
  constants (remote staging paths), `Prepare` (configuration validation),
  `Provision` (the ordered step sequence), `UploadLocalDirectory` (the
  `filepath.Walk`-based uploader), `CreateRemoteDirectory`,
  `InstallPuppet`, and `executeCommand` (the select loop that multiplexes
  stdout lines, stderr lines and the exit status).

Modelling conventions:
  - Machine interaction is parametrised: the outcome of each channel call
    (`comm.Start`, `comm.Upload`, `os.Open`, `os.Stat`) is an input to the
    embedded function, as `Option String` (`some e` = the call failed with
    message `e`, `none` = it succeeded).
  - Go error values built with `fmt.Errorf` are modelled as the formatted
    `String`.
  - The nondeterministic `select` scheduling inside `executeCommand` is
    parametrised by the trace of events the loop receives before the exit
    status is selected, plus the lines still buffered on each stream
    channel at that moment.
-/

/-! Constants from provisioner.go. -/

def RemoteStagingPath : String := "/tmp/provision/puppet"

def RemoteFileCachePath : String := "/tmp/provision/puppet"

def RemoteModulePath : String := "/tmp/provision/puppet/modules"

def RemoteManifestPath : String := "/tmp/provision/puppet/manifest"

def DefaultModulesPath : String := "modules"

/-! String helpers mirroring the Go standard library pieces the source
uses: `strings.TrimSpace` and substring tests used to state claims. -/

/-- Whitespace as recognised by Go `unicode.IsSpace` (ASCII range, which
covers every character the claims exercise). -/
def goIsSpace (c : Char) : Bool :=
  c = ' ' || c = '\t' || c = '\n' || c = '\x0b' || c = '\x0c' || c = '\r'

/-- List-level core of `strings.TrimSpace`: drop whitespace from both
ends. -/
def goTrimSpaceList (l : List Char) : List Char :=
  ((l.dropWhile goIsSpace).reverse.dropWhile goIsSpace).reverse

/-- Model of Go `strings.TrimSpace`. -/
def goTrimSpace (s : String) : String :=
  ⟨goTrimSpaceList s.data⟩

/-- Does the string have no trailing whitespace character? -/
def noTrailingSpace (s : String) : Bool :=
  match s.data.getLast? with
  | some c => !goIsSpace c
  | none => true

/-- Does list `l` start with `pat`? -/
def listStarts : List Char → List Char → Bool
  | _, [] => true
  | [], _ :: _ => false
  | c :: l, d :: pat => c == d && listStarts l pat

/-- Does `pat` occur as a contiguous segment of `l`? -/
def listHasSeg (pat : List Char) : List Char → Bool
  | [] => listStarts [] pat
  | c :: t => listStarts (c :: t) pat || listHasSeg pat t

/-- Does `pat` occur as a contiguous substring of `s`? -/
def strHasSeg (s pat : String) : Bool :=
  listHasSeg pat.data s.data

/-! Model of `executeCommand` (provisioner.go lines 193-250).

After a successful `comm.Start`, a goroutine waits for the command and
sends its exit status on `exitChan`; `iochan.DelimReader` turns each of
stdout and stderr into a channel of newline-delimited lines.  The
`OutputLoop` `select` repeatedly receives one event: a stderr line or a
stdout line (forwarded to the sink as `Ui.Message(strings.TrimSpace(output))`)
or the exit status.  On a non-zero exit status the function returns the
failure at once; on a zero status it breaks out of the loop and then
drains all lines remaining on `stdoutChan`, then on `stderrChan`,
forwarding each as `Ui.Message(output)` (with no trimming).

The embedding takes: the start outcome, the list `loopEvents` of line
events the select delivers before it selects the exit status, the exit
status, and the lines still buffered on each stream channel when the exit
status is selected.  It returns the sequence of messages delivered to the
sink, paired with the returned error (if any). -/

inductive OutEvent where
  | stdout : String → OutEvent
  | stderr : String → OutEvent
deriving DecidableEq

/-- Payload of an output event. -/
def OutEvent.line : OutEvent → String
  | .stdout s => s
  | .stderr s => s

/-- Project a stdout event to its line. -/
def stdoutOf : OutEvent → Option String
  | .stdout s => some s
  | .stderr _ => none

/-- Project a stderr event to its line. -/
def stderrOf : OutEvent → Option String
  | .stdout _ => none
  | .stderr s => some s

/-- Error message for a failed `comm.Start` (line 206). -/
def failedStartMsg (e : String) : String :=
  "Failed executing command: " ++ e

/-- Error message for a non-zero exit status (line 232). -/
def nonZeroExitMsg (n : Int) : String :=
  "Command exited with non-zero exit status: " ++ toString n

/-- The `OutputLoop` together with the post-loop drain: process the line
events delivered before the exit status, then act on the exit status; on
status 0 flush the lines still buffered on stdout, then on stderr. -/
def outputPhase : List OutEvent → Int → List String → List String →
    List String × Option String
  | ev :: rest, es, remStdout, remStderr =>
      let (msgs, r) := outputPhase rest es remStdout remStderr
      (goTrimSpace ev.line :: msgs, r)
  | [], es, remStdout, remStderr =>
      if es ≠ 0 then ([], some (nonZeroExitMsg es))
      else (remStdout ++ remStderr, none)

/-- Model of `executeCommand`: messages delivered to the sink, and the
returned error. -/
def executeCommand (startErr : Option String) (loopEvents : List OutEvent)
    (exitStatus : Int) (remStdout remStderr : List String) :
    List String × Option String :=
  match startErr with
  | some e => ([], some (failedStartMsg e))
  | none => outputPhase loopEvents exitStatus remStdout remStderr

/-! Model of `Prepare` (provisioner.go lines 55-80).

The `mapstructure.Decode` loop is assumed to have succeeded; the embedding
starts from the decoded `modules_paths` value, which is `none` when the
option was absent (Go `nil`).  The local filesystem is modelled as a
function from path to `Option Bool`: `none` when `os.Stat` fails, and
`some isDir` otherwise.  `Prepare` takes no remote channel, so no remote
action can occur during validation.  The Go code returns one
`packer.MultiError` holding one error per bad path, each built as
`fmt.Errorf("Bad module path '%s': %s", path, err)`; the embedding keeps
the structured list of offending paths, in configuration order. -/

/-- The filesystem as seen by `os.Stat`: `none` = stat error,
`some isDir` = the path exists. -/
def FileSys : Type := String → Option Bool

/-- Does the `Prepare` loop record an error for this path?  It does when
`os.Stat` fails or the path is not a directory (line 70). -/
def badModulePath (fs : FileSys) (p : String) : Bool :=
  match fs p with
  | none => true
  | some isDir => !isDir

/-- Default substitution for a `nil` `modules_paths` (lines 63-65). -/
def resolveModulesPaths (raw : Option (List String)) : List String :=
  match raw with
  | none => [DefaultModulesPath]
  | some ps => ps

/-- Model of `Prepare`: `Except.error bad` is the `MultiError` listing the
offending paths; `Except.ok paths` is the `nil` return, with the resolved
module path list the provisioner will use. -/
def Prepare (fs : FileSys) (raw : Option (List String)) :
    Except (List String) (List String) :=
  let paths := resolveModulesPaths raw
  let errs := paths.filter (fun p => badModulePath fs p)
  if errs.isEmpty then Except.ok paths else Except.error errs

/-! Model of `CreateRemoteDirectory` (provisioner.go lines 156-176).

The function joins `"mkdir -p"` with the path, starts it on the channel,
and, when the start succeeded, calls `cmd.Wait()` and returns the named
result `err`, which is still `nil`: `cmd.ExitStatus` is never read.  The
embedding takes the start outcome and the exit status the remote `mkdir`
eventually reports. -/

/-- The command line sent for a remote directory creation (lines 159-162). -/
def mkdirCommand (path : String) : String :=
  "mkdir -p" ++ " " ++ path

/-- Model of `CreateRemoteDirectory`: the returned error. -/
def CreateRemoteDirectory (path : String) (startErr : Option String)
    (exitStatus : Int) : Option String :=
  match startErr with
  | some e => some ("Unable to create remote directory " ++ path ++ ": " ++ e)
  | none => none

/-! Model of `UploadLocalDirectory` (provisioner.go lines 123-154).

`filepath.Walk(localDir, visitPath)` performs a depth-first traversal that
visits `localDir` itself first, then descendants, each with its path
spelled as `localDir` joined with the relative path; an error returned by
the visitor for any entry aborts the walk at once.  The local tree is
modelled as a rose tree (mutual inductive), and the walk as the list of
(path, isDirectory) entries in visitation order.  The channel responses
are parametrised per path. -/

mutual
inductive FSEntry where
  | file : FSEntry
  | dir : FSChildren → FSEntry
inductive FSChildren where
  | nil : FSChildren
  | cons : String → FSEntry → FSChildren → FSChildren
end

mutual
/-- Entries of the `filepath.Walk` traversal rooted at `p`, in visitation
order, with their directory flag. -/
def walkEntry (p : String) : FSEntry → List (String × Bool)
  | .file => [(p, false)]
  | .dir cs => (p, true) :: walkChildren p cs
/-- Entries contributed by a directory's children, in order. -/
def walkChildren (p : String) : FSChildren → List (String × Bool)
  | .nil => []
  | .cons name e rest => walkEntry (p ++ "/" ++ name) e ++ walkChildren p rest
end

/-- Outcomes of the machine interactions `visitPath` performs, keyed by
the path each call receives. -/
structure UploadEnv where
  /-- Outcome of `comm.Start` for the remote mkdir, by remote path. -/
  mkdirStartErr : String → Option String
  /-- Exit status the remote mkdir reports, by remote path. -/
  mkdirExit : String → Int
  /-- Reason `os.Open` fails, by local path (the Go error prints as
  `open <path>: <reason>`). -/
  openErr : String → Option String
  /-- Outcome of `comm.Upload`, by remote path. -/
  uploadErr : String → Option String

/-- The remote path used for a walked entry (line 125). -/
def entryRemotePath (path : String) : String :=
  RemoteModulePath ++ "/" ++ path

/-- Model of the `visitPath` closure (lines 124-145): the error it returns
for one walked entry. -/
def visitPath (env : UploadEnv) (path : String) (isDir : Bool) :
    Option String :=
  let remotePath := entryRemotePath path
  if isDir then
    CreateRemoteDirectory remotePath (env.mkdirStartErr remotePath)
      (env.mkdirExit remotePath)
  else
    match env.openErr path with
    | some e => some ("Error opening file: " ++ ("open " ++ path ++ ": " ++ e))
    | none =>
      match env.uploadErr remotePath with
      | some e => some ("Error uploading file: " ++ e)
      | none => none

/-- Model of `filepath.Walk`: visit the entries in order, stopping at the
first visitor error; returns the visited entries and the walk result. -/
def runWalk (env : UploadEnv) : List (String × Bool) →
    List (String × Bool) × Option String
  | [] => ([], none)
  | (p, d) :: rest =>
      match visitPath env p d with
      | some e => ([(p, d)], some e)
      | none =>
          let (t, res) := runWalk env rest
          ((p, d) :: t, res)

/-- Model of `UploadLocalDirectory`: the entries visited and the returned
error (a walk error is wrapped as
`Error uploading modules <localDir>: <err>`, lines 148-151). -/
def UploadLocalDirectory (env : UploadEnv) (localDir : String)
    (tree : FSEntry) : List (String × Bool) × Option String :=
  match runWalk env (walkEntry localDir tree) with
  | (visited, some e) =>
      (visited, some ("Error uploading modules " ++ localDir ++ ": " ++ e))
  | (visited, none) => (visited, none)

/-! Command construction (provisioner.go lines 110-113 and 178-191).

`InstallPuppet` renders the template
`{{if .sudo}}sudo {{end}}gem install puppet` with `sudo := !preventSudo`;
`Provision` renders `{{if .Sudo}}sudo {{end}}puppet --verbose ???` with
`Sudo := !PreventSudo`. -/

/-- The tool-installation command line. -/
def installPuppetCommand (preventSudo : Bool) : String :=
  (if !preventSudo then "sudo " else "") ++ "gem install puppet"

/-- The configuration-run command line. -/
def puppetRunCommand (preventSudo : Bool) : String :=
  (if !preventSudo then "sudo " else "") ++ "puppet --verbose ???"

/-! Model of `Provision` (provisioner.go lines 82-121).

`Provision` runs, in source order: `InstallPuppet` (unless
`SkipInstall`), `CreateRemoteDirectory RemoteModulePath`, one
`UploadLocalDirectory` per configured module path in configuration order,
and the Puppet run via `executeCommand`.  Each call's outcome at the
`Provision` boundary is parametrised; the first failure is wrapped in the
step's message and returned, and no further step runs. -/

inductive Step where
  | install : Step
  | createDir : Step
  | uploadModule : String → Step
  | puppetRun : Step
deriving DecidableEq

/-- Outcomes of the four kinds of calls `Provision` makes, as seen at its
call sites. -/
structure StepResults where
  /-- Result of `InstallPuppet`. -/
  installErr : Option String
  /-- Result of `CreateRemoteDirectory RemoteModulePath`. -/
  createErr : Option String
  /-- Result of `UploadLocalDirectory` for a module path. -/
  uploadErr : String → Option String
  /-- Result of `executeCommand` for the Puppet run. -/
  runErr : Option String

/-- The underlying cause a step fails with, if any. -/
def stepCause (r : StepResults) : Step → Option String
  | .install => r.installErr
  | .createDir => r.createErr
  | .uploadModule p => r.uploadErr p
  | .puppetRun => r.runErr

/-- The step-identifying wrapper `Provision` applies to a failing step's
cause (lines 89, 95, 103, 117). -/
def stepFailMsg : Step → String → String
  | .install, e => "Error installing Puppet: " ++ e
  | .createDir, e => "Error creating remote staging directory: " ++ e
  | .uploadModule _, e => "Error uploading modules: " ++ e
  | .puppetRun, e => "Error running Puppet: " ++ e

/-- The full step sequence `Provision` attempts for a configuration. -/
def provisionSeq (skipInstall : Bool) (paths : List String) : List Step :=
  (if skipInstall then [] else [Step.install]) ++
    Step.createDir :: (paths.map Step.uploadModule ++ [Step.puppetRun])

/-- Run steps in order, stopping at the first failure and wrapping its
cause in the step's message; returns the executed steps and the result. -/
def runSteps (r : StepResults) : List Step → List Step × Option String
  | [] => ([], none)
  | s :: rest =>
      match stepCause r s with
      | some e => ([s], some (stepFailMsg s e))
      | none =>
          let (t, res) := runSteps r rest
          (s :: t, res)

/-- Model of `Provision`: the steps executed in order, and the returned
error. -/
def Provision (skipInstall : Bool) (paths : List String)
    (r : StepResults) : List Step × Option String :=
  runSteps r (provisionSeq skipInstall paths)

/-! Concrete fixtures used to evaluate the theorems on closed inputs. -/

/-- A filesystem on which every `os.Stat` fails. -/
def fsNoDirs : FileSys := fun _ => none

/-- A filesystem holding exactly one directory, named `modules`. -/
def fsModulesOnly : FileSys :=
  fun p => if p = "modules" then some true else none

/-- The spec's example tree `root/{a.txt, sub/b.txt}` (the root name is
supplied to the walk separately). -/
def treeCex : FSEntry :=
  FSEntry.dir (FSChildren.cons "a.txt" FSEntry.file
    (FSChildren.cons "sub"
      (FSEntry.dir (FSChildren.cons "b.txt" FSEntry.file FSChildren.nil))
      FSChildren.nil))

/-- An upload environment in which only the remote upload of
`root/sub/b.txt` fails, with a cause that does not mention the path. -/
def envCex : UploadEnv :=
  { mkdirStartErr := fun _ => none
    mkdirExit := fun _ => 0
    openErr := fun _ => none
    uploadErr := fun rp =>
      if rp = "/tmp/provision/puppet/modules/root/sub/b.txt" then
        some "connection reset by peer"
      else none }

/-- An upload environment in which every call succeeds. -/
def envOk : UploadEnv :=
  { mkdirStartErr := fun _ => none
    mkdirExit := fun _ => 0
    openErr := fun _ => none
    uploadErr := fun _ => none }

/-- Step outcomes in which only the install step fails. -/
def rInstallFail : StepResults :=
  { installErr := some "boom"
    createErr := none
    uploadErr := fun _ => none
    runErr := none }

/-! Helper lemmas. -/

/-- Head of a `dropWhile` never satisfies the dropped predicate. -/
theorem head_dropWhile_not (p : Char → Bool) :
    ∀ (l : List Char) (c : Char), (l.dropWhile p).head? = some c → p c = false := by
  intro l
  induction l with
  | nil => intro c h; simp [List.dropWhile] at h
  | cons a t ih =>
    intro c h
    rw [List.dropWhile_cons] at h
    by_cases hpa : p a = true
    · rw [if_pos hpa] at h
      exact ih c h
    · rw [if_neg hpa] at h
      simp only [List.head?_cons, Option.some.injEq] at h
      subst h
      exact Bool.eq_false_iff.mpr hpa

/-- Trimmed strings have no trailing whitespace. -/
theorem noTrailingSpace_goTrimSpace (s : String) :
    noTrailingSpace (goTrimSpace s) = true := by
  show (match (goTrimSpaceList s.data).getLast? with
        | some c => !goIsSpace c
        | none => true) = true
  unfold goTrimSpaceList
  rw [List.getLast?_reverse]
  cases hh : (((s.data.dropWhile goIsSpace).reverse).dropWhile goIsSpace).head? with
  | none => rfl
  | some c => simp [head_dropWhile_not goIsSpace _ c hh]

/-- Behavior of the output phase on a zero exit status: the loop lines are
forwarded trimmed, then the buffered stdout lines, then the buffered
stderr lines, and the result is success. -/
theorem outputPhase_zero (evs : List OutEvent) (ro re : List String) :
    outputPhase evs 0 ro re
      = (evs.map (fun ev => goTrimSpace ev.line) ++ ro ++ re, none) := by
  induction evs with
  | nil => simp [outputPhase]
  | cons ev rest ih => simp [outputPhase, ih]

/-- Behavior of the output phase on a non-zero exit status: the loop lines
are forwarded trimmed, the buffered lines are dropped, and the failure
carries the status. -/
theorem outputPhase_nonzero (evs : List OutEvent) (es : Int)
    (ro re : List String) (h : es ≠ 0) :
    outputPhase evs es ro re
      = (evs.map (fun ev => goTrimSpace ev.line), some (nonZeroExitMsg es)) := by
  induction evs with
  | nil => simp [outputPhase, h]
  | cons ev rest ih => simp [outputPhase, ih]

/-- Trimmed stdout lines of the loop phase form a sublist of all trimmed
loop messages, in order. -/
theorem stdout_map_sublist (evs : List OutEvent) :
    List.Sublist ((evs.filterMap stdoutOf).map goTrimSpace)
      (evs.map (fun ev => goTrimSpace ev.line)) := by
  induction evs with
  | nil => simp
  | cons ev rest ih =>
    cases ev with
    | stdout s =>
        simpa [stdoutOf, OutEvent.line] using List.Sublist.cons₂ (goTrimSpace s) ih
    | stderr s =>
        simpa [stdoutOf, OutEvent.line] using List.Sublist.cons (goTrimSpace s) ih

/-- Trimmed stderr lines of the loop phase form a sublist of all trimmed
loop messages, in order. -/
theorem stderr_map_sublist (evs : List OutEvent) :
    List.Sublist ((evs.filterMap stderrOf).map goTrimSpace)
      (evs.map (fun ev => goTrimSpace ev.line)) := by
  induction evs with
  | nil => simp
  | cons ev rest ih =>
    cases ev with
    | stdout s =>
        simpa [stderrOf, OutEvent.line] using List.Sublist.cons (goTrimSpace s) ih
    | stderr s =>
        simpa [stderrOf, OutEvent.line] using List.Sublist.cons₂ (goTrimSpace s) ih

/-- A list starts with any of its initial segments. -/
theorem listStarts_append (pat r : List Char) :
    listStarts (pat ++ r) pat = true := by
  induction pat with
  | nil => cases r <;> rfl
  | cons c t ih => simp [listStarts, ih]

/-- A string equal to `pat ++ r` starts with `pat` at the list level. -/
theorem starts_of_eq_append (s pat r : String) (h : s = pat ++ r) :
    listStarts s.data pat.data = true := by
  subst h
  rw [String.data_append]
  exact listStarts_append pat.data r.data

/-- Fail-fast characterisation of `runSteps`: the executed steps are an
initial segment of the given sequence; success means every step ran and
succeeded; a failure is the wrapped cause of the last executed step, and
every earlier executed step succeeded. -/
theorem runSteps_spec (r : StepResults) (steps : List Step) :
    (runSteps r steps).1 = steps.take (runSteps r steps).1.length
    ∧ ((runSteps r steps).2 = none →
        (runSteps r steps).1 = steps ∧ ∀ s ∈ steps, stepCause r s = none)
    ∧ (∀ m, (runSteps r steps).2 = some m →
        ∃ pre s e, (runSteps r steps).1 = pre ++ [s]
          ∧ (∀ s2 ∈ pre, stepCause r s2 = none)
          ∧ stepCause r s = some e ∧ m = stepFailMsg s e) := by
  induction steps with
  | nil =>
      refine ⟨rfl, fun _ => ⟨rfl, by simp⟩, fun m hm => ?_⟩
      simp [runSteps] at hm
  | cons s rest ih =>
    obtain ⟨ih1, ih2, ih3⟩ := ih
    cases hc : stepCause r s with
    | some e =>
        refine ⟨by simp [runSteps, hc], ?_, ?_⟩
        · intro hnone; simp [runSteps, hc] at hnone
        · intro m hm
          simp only [runSteps, hc] at hm
          exact ⟨[], s, e, by simp [runSteps, hc], by simp, hc,
            (Option.some.inj hm).symm⟩
    | none =>
        have hfst : (runSteps r (s :: rest)).1 = s :: (runSteps r rest).1 := by
          simp [runSteps, hc]
        have hsnd : (runSteps r (s :: rest)).2 = (runSteps r rest).2 := by
          simp [runSteps, hc]
        refine ⟨?_, ?_, ?_⟩
        · rw [hfst]
          simp only [List.length_cons, List.take_succ_cons]
          rw [← ih1]
        · intro hnone
          rw [hsnd] at hnone
          obtain ⟨ha, hb⟩ := ih2 hnone
          refine ⟨by rw [hfst, ha], ?_⟩
          intro s2 hs2
          rcases List.mem_cons.mp hs2 with h | h
          · subst h; exact hc
          · exact hb s2 h
        · intro m hm
          rw [hsnd] at hm
          obtain ⟨pre, s0, e, hsplit, hpre, hcause, hmsg⟩ := ih3 m hm
          refine ⟨s :: pre, s0, e, ?_, ?_, hcause, hmsg⟩
          · rw [hfst, hsplit]; rfl
          · intro s2 hs2
            rcases List.mem_cons.mp hs2 with h | h
            · subst h; exact hc
            · exact hpre s2 h

/-- Fail-fast characterisation of `runWalk`, analogous to `runSteps`. -/
theorem runWalk_spec (env : UploadEnv) (entries : List (String × Bool)) :
    (runWalk env entries).1 = entries.take (runWalk env entries).1.length
    ∧ ((runWalk env entries).2 = none →
        (runWalk env entries).1 = entries
          ∧ ∀ q ∈ entries, visitPath env q.1 q.2 = none)
    ∧ (∀ m, (runWalk env entries).2 = some m →
        ∃ pre p d, (runWalk env entries).1 = pre ++ [(p, d)]
          ∧ (∀ q ∈ pre, visitPath env q.1 q.2 = none)
          ∧ visitPath env p d = some m) := by
  induction entries with
  | nil =>
      refine ⟨rfl, fun _ => ⟨rfl, by simp⟩, fun m hm => ?_⟩
      simp [runWalk] at hm
  | cons q rest ih =>
    obtain ⟨p, d⟩ := q
    obtain ⟨ih1, ih2, ih3⟩ := ih
    cases hc : visitPath env p d with
    | some e =>
        refine ⟨by simp [runWalk, hc], ?_, ?_⟩
        · intro hnone; simp [runWalk, hc] at hnone
        · intro m hm
          simp only [runWalk, hc] at hm
          obtain rfl : e = m := Option.some.inj hm
          exact ⟨[], p, d, by simp [runWalk, hc], by simp, hc⟩
    | none =>
        have hfst : (runWalk env ((p, d) :: rest)).1
            = (p, d) :: (runWalk env rest).1 := by
          simp [runWalk, hc]
        have hsnd : (runWalk env ((p, d) :: rest)).2 = (runWalk env rest).2 := by
          simp [runWalk, hc]
        refine ⟨?_, ?_, ?_⟩
        · rw [hfst]
          simp only [List.length_cons, List.take_succ_cons]
          rw [← ih1]
        · intro hnone
          rw [hsnd] at hnone
          obtain ⟨ha, hb⟩ := ih2 hnone
          refine ⟨by rw [hfst, ha], ?_⟩
          intro q2 hq2
          rcases List.mem_cons.mp hq2 with h | h
          · subst h; exact hc
          · exact hb q2 h
        · intro m hm
          rw [hsnd] at hm
          obtain ⟨pre, p0, d0, hsplit, hpre, hcause⟩ := ih3 m hm
          refine ⟨(p, d) :: pre, p0, d0, ?_, ?_, hcause⟩
          · rw [hfst, hsplit]; rfl
          · intro q2 hq2
            rcases List.mem_cons.mp hq2 with h | h
            · subst h; exact hc
            · exact hpre q2 h

/-- Visited entries of an upload are the visited entries of the walk. -/
theorem UploadLocalDirectory_fst (env : UploadEnv) (localDir : String)
    (tree : FSEntry) :
    (UploadLocalDirectory env localDir tree).1
      = (runWalk env (walkEntry localDir tree)).1 := by
  cases hout : runWalk env (walkEntry localDir tree) with
  | mk v res => cases res <;> simp [UploadLocalDirectory, hout]

mutual
/-- Every path produced by the walk rooted at `p` extends `p`. -/
theorem walkEntry_starts (p : String) (e : FSEntry) :
    ∀ q ∈ walkEntry p e, ∃ r, q.1 = p ++ r :=
  match e with
  | .file => by
      intro q hq
      simp only [walkEntry, List.mem_singleton] at hq
      subst hq
      exact ⟨"", (String.append_empty p).symm⟩
  | .dir cs => by
      intro q hq
      simp only [walkEntry, List.mem_cons] at hq
      rcases hq with h | h
      · subst h
        exact ⟨"", (String.append_empty p).symm⟩
      · exact walkChildren_starts p cs q h
/-- Every path produced by walking children of `p` extends `p`. -/
theorem walkChildren_starts (p : String) (cs : FSChildren) :
    ∀ q ∈ walkChildren p cs, ∃ r, q.1 = p ++ r :=
  match cs with
  | .nil => by intro q hq; simp [walkChildren] at hq
  | .cons name e rest => by
      intro q hq
      simp only [walkChildren, List.mem_append] at hq
      rcases hq with h | h
      · obtain ⟨r, hr⟩ := walkEntry_starts (p ++ "/" ++ name) e q h
        exact ⟨"/" ++ name ++ r, by simp [hr, String.append_assoc]⟩
      · exact walkChildren_starts p rest q h
end

/-! Claim theorems. -/

/-- C1 (code-bug evidence): when the select loop receives a non-zero exit
status while a line produced before exit is still buffered on the stdout
channel, `executeCommand` returns the failure carrying the status but the
buffered line is never delivered to the sink, contradicting the claim that
all output already produced is delivered before the failure is returned.
Evaluated at the failing input: no loop events, exit status 2, one
buffered stdout line. -/
theorem executeCommand_nonzero_drops_buffered :
    executeCommand none [] 2 ["final line\n"] []
        = ([], some "Command exited with non-zero exit status: 2")
    ∧ "final line\n" ∉ (executeCommand none [] 2 ["final line\n"] []).1
    ∧ nonZeroExitMsg 2 = "Command exited with non-zero exit status: 2" := by
  refine ⟨by decide, by decide, by decide⟩

/-- C2: for a command that starts and exits with status 0,
`executeCommand` returns success and the sink receives the loop-phase
lines trimmed in arrival order followed by every line still buffered on
stdout and then on stderr; in particular the stdout stream's delivered
lines appear in stream order, and likewise for stderr. -/
theorem executeCommand_zero_exit (evs : List OutEvent) (ro re : List String) :
    executeCommand none evs 0 ro re
        = (evs.map (fun ev => goTrimSpace ev.line) ++ ro ++ re, none)
    ∧ List.Sublist ((evs.filterMap stdoutOf).map goTrimSpace ++ ro)
        (executeCommand none evs 0 ro re).1
    ∧ List.Sublist ((evs.filterMap stderrOf).map goTrimSpace ++ re)
        (executeCommand none evs 0 ro re).1 := by
  have h0 : executeCommand none evs 0 ro re
      = (evs.map (fun ev => goTrimSpace ev.line) ++ ro ++ re, none) :=
    outputPhase_zero evs ro re
  refine ⟨h0, ?_, ?_⟩
  · rw [h0]
    exact List.Sublist.trans
      (List.Sublist.append (stdout_map_sublist evs) (List.Sublist.refl ro))
      (List.sublist_append_left _ re)
  · rw [h0]
    exact List.Sublist.append
      (List.Sublist.trans (stderr_map_sublist evs) (List.sublist_append_left _ ro))
      (List.Sublist.refl re)

/-- C3 (counterexample): a line still buffered on stdout when the zero
exit status is selected is forwarded to the sink verbatim, with its
trailing whitespace intact, refuting the claim that every forwarded line
is trimmed of trailing whitespace. -/
theorem drained_line_not_trimmed :
    (executeCommand none [] 0 ["tail  "] []).1 = ["tail  "]
    ∧ "tail  " ∈ (executeCommand none [] 0 ["tail  "] []).1
    ∧ noTrailingSpace "tail  " = false := by
  refine ⟨by decide, by decide, by decide⟩

/-- C3 (amended): the lines forwarded during the select loop are exactly
the loop events trimmed (so they carry no trailing whitespace), while the
lines drained after the exit-status signal (delivered only when the status
is 0) are forwarded unmodified. -/
theorem executeCommand_trims_loop_lines_only (evs : List OutEvent)
    (es : Int) (ro re : List String) :
    ((executeCommand none evs es ro re).1.take evs.length
        = evs.map (fun ev => goTrimSpace ev.line))
    ∧ (∀ m ∈ (executeCommand none evs es ro re).1.take evs.length,
        noTrailingSpace m = true)
    ∧ ((executeCommand none evs es ro re).1.drop evs.length
        = if es = 0 then ro ++ re else []) := by
  have hlen : (evs.map (fun ev => goTrimSpace ev.line)).length = evs.length :=
    List.length_map evs _
  have hmem : ∀ m ∈ evs.map (fun ev => goTrimSpace ev.line),
      noTrailingSpace m = true := by
    intro m hm
    obtain ⟨ev, _, rfl⟩ := List.mem_map.mp hm
    exact noTrailingSpace_goTrimSpace ev.line
  by_cases h : es = 0
  · subst h
    have h0 : executeCommand none evs 0 ro re
        = (evs.map (fun ev => goTrimSpace ev.line) ++ ro ++ re, none) :=
      outputPhase_zero evs ro re
    rw [h0]
    simp only [List.append_assoc, ← hlen]
    refine ⟨List.take_left _ _, ?_, ?_⟩
    · rw [List.take_left]; exact hmem
    · rw [List.drop_left]; simp
  · have h0 : executeCommand none evs es ro re
        = (evs.map (fun ev => goTrimSpace ev.line), some (nonZeroExitMsg es)) :=
      outputPhase_nonzero evs es ro re h
    rw [h0]
    simp only [← hlen]
    refine ⟨List.take_length _, ?_, ?_⟩
    · rw [List.take_length]; exact hmem
    · rw [List.drop_length]; simp [h]

/-- C3 (amended) evaluated on a concrete input: the loop line
`"hi \n"` is delivered as `"hi"`, which has no trailing whitespace. -/
theorem executeCommand_trims_loop_lines_only_witness :
    noTrailingSpace "hi" = true :=
  (executeCommand_trims_loop_lines_only [OutEvent.stdout "hi \n"] 5
      ["x  "] []).2.1 "hi" (by decide)

/-- C4: whenever at least one configured module path fails `os.Stat` or is
not a directory, `Prepare` returns a single error listing exactly the
invalid paths, all of them, in configuration order; `Prepare` takes no
remote channel, so no remote action is involved. -/
theorem Prepare_lists_every_bad_path (fs : FileSys)
    (raw : Option (List String))
    (h : ∃ p ∈ resolveModulesPaths raw, badModulePath fs p = true) :
    Prepare fs raw
        = Except.error
            ((resolveModulesPaths raw).filter (fun p => badModulePath fs p))
    ∧ (∀ p ∈ resolveModulesPaths raw, badModulePath fs p = true →
        p ∈ (resolveModulesPaths raw).filter (fun p => badModulePath fs p))
    ∧ (∀ p ∈ (resolveModulesPaths raw).filter (fun p => badModulePath fs p),
        badModulePath fs p = true) := by
  obtain ⟨p, hp, hbad⟩ := h
  have hmem : p ∈ (resolveModulesPaths raw).filter (fun q => badModulePath fs q) :=
    List.mem_filter.mpr ⟨hp, hbad⟩
  have hne : ((resolveModulesPaths raw).filter
      (fun q => badModulePath fs q)).isEmpty = false := by
    cases hfe : (resolveModulesPaths raw).filter (fun q => badModulePath fs q) with
    | nil => rw [hfe] at hmem; cases hmem
    | cons a t => rfl
  refine ⟨?_, ?_, ?_⟩
  · simp [Prepare, hne]
  · intro q hq hbadq
    exact List.mem_filter.mpr ⟨hq, hbadq⟩
  · intro q hq
    exact (List.mem_filter.mp hq).2

/-- C4 evaluated on a concrete input: with both configured paths missing,
`Prepare` reports both. -/
theorem Prepare_lists_every_bad_path_witness :
    Prepare fsNoDirs (some ["a", "b"]) = Except.error ["a", "b"] := by
  have h := Prepare_lists_every_bad_path fsNoDirs (some ["a", "b"])
    ⟨"a", by decide, by decide⟩
  exact h.1.trans (congrArg Except.error (by decide))

/-- C10: when `modules_paths` is absent, `Prepare` substitutes the single
default path `modules` before validating, and the configuration is
accepted exactly when the filesystem has a directory at `modules`. -/
theorem Prepare_nil_defaults_to_modules (fs : FileSys) :
    resolveModulesPaths none = [DefaultModulesPath]
    ∧ (Prepare fs none = Except.ok [DefaultModulesPath]
        ↔ fs "modules" = some true)
    ∧ (fs "modules" ≠ some true →
        Prepare fs none = Except.error ["modules"]) := by
  have hbad : badModulePath fs "modules" = false ↔ fs "modules" = some true := by
    unfold badModulePath
    cases hfs : fs "modules" with
    | none => simp
    | some d => cases d <;> simp
  have herr : badModulePath fs "modules" = true →
      Prepare fs none = Except.error ["modules"] := by
    intro hb
    simp [Prepare, resolveModulesPaths, DefaultModulesPath, List.filter, hb]
  refine ⟨rfl, ⟨?_, ?_⟩, ?_⟩
  · intro h
    cases hb : badModulePath fs "modules" with
    | false => exact hbad.mp hb
    | true => rw [herr hb] at h; cases h
  · intro h
    have hb := hbad.mpr h
    simp [Prepare, resolveModulesPaths, DefaultModulesPath, List.filter, hb]
  · intro h
    refine herr ?_
    cases hb : badModulePath fs "modules" with
    | false => exact absurd (hbad.mp hb) h
    | true => rfl

/-- C10 evaluated on a concrete input: a filesystem with a `modules`
directory accepts the nil configuration. -/
theorem Prepare_nil_defaults_to_modules_witness :
    Prepare fsModulesOnly none = Except.ok [DefaultModulesPath] :=
  (Prepare_nil_defaults_to_modules fsModulesOnly).2.1.mpr (by decide)

/-- C5: `Provision` attempts exactly the sequence install (unless
skipped), remote module-root creation, module uploads in configured
order, configuration run; the executed steps are always an initial
segment of that sequence, success means every step ran and succeeded, and
a failure is the step-identifying wrapping of the cause of the last
executed step, every earlier executed step having succeeded (so nothing
later ran and nothing was retried). -/
theorem Provision_step_sequence (skip : Bool) (paths : List String)
    (r : StepResults) :
    (Provision skip paths r).1
        = (provisionSeq skip paths).take (Provision skip paths r).1.length
    ∧ ((Provision skip paths r).2 = none →
        (Provision skip paths r).1 = provisionSeq skip paths
          ∧ ∀ s ∈ provisionSeq skip paths, stepCause r s = none)
    ∧ (∀ m, (Provision skip paths r).2 = some m →
        ∃ pre s e, (Provision skip paths r).1 = pre ++ [s]
          ∧ (∀ s2 ∈ pre, stepCause r s2 = none)
          ∧ stepCause r s = some e ∧ m = stepFailMsg s e) :=
  runSteps_spec r (provisionSeq skip paths)

/-- C5 evaluated on a concrete input: when the install step fails, the
returned failure wraps its cause and install is the only executed step. -/
theorem Provision_step_sequence_witness :
    ∃ pre s e, (Provision false ["m"] rInstallFail).1 = pre ++ [s]
      ∧ (∀ s2 ∈ pre, stepCause rInstallFail s2 = none)
      ∧ stepCause rInstallFail s = some e
      ∧ "Error installing Puppet: boom" = stepFailMsg s e :=
  (Provision_step_sequence false ["m"] rInstallFail).2.2
    "Error installing Puppet: boom" (by decide)

/-- C6 (counterexample): on the spec's example tree `root/{a.txt,
sub/b.txt}`, a failing remote upload of `sub/b.txt` whose channel error
does not mention the file produces an overall failure whose message
contains neither `root/sub/b.txt` nor even `b.txt` — the failure does not
attribute the offending entry's path. -/
theorem upload_failure_lacks_entry_path :
    (UploadLocalDirectory envCex "root" treeCex).2
        = some "Error uploading modules root: Error uploading file: connection reset by peer"
    ∧ strHasSeg
        "Error uploading modules root: Error uploading file: connection reset by peer"
        "root/sub/b.txt" = false
    ∧ strHasSeg
        "Error uploading modules root: Error uploading file: connection reset by peer"
        "b.txt" = false := by
  refine ⟨by decide, by decide, by decide⟩

/-- C6 (amended): if a remote directory creation, local file open, or
remote file upload fails for some entry of the traversal, no subsequent
entry is visited and the upload returns a failure naming the walk root
and wrapping the failing entry's cause (the visited entries are an
initial segment of the walk ending at the offending entry; the offending
entry's path appears in the cause for directory-creation and file-open
failures but not necessarily for remote upload failures). -/
theorem UploadLocalDirectory_fail_fast (env : UploadEnv) (localDir : String)
    (tree : FSEntry) :
    (UploadLocalDirectory env localDir tree).1
        = (walkEntry localDir tree).take
            (UploadLocalDirectory env localDir tree).1.length
    ∧ ((UploadLocalDirectory env localDir tree).2 = none →
        (UploadLocalDirectory env localDir tree).1 = walkEntry localDir tree
          ∧ ∀ q ∈ walkEntry localDir tree, visitPath env q.1 q.2 = none)
    ∧ (∀ m, (UploadLocalDirectory env localDir tree).2 = some m →
        ∃ pre p d e, (UploadLocalDirectory env localDir tree).1 = pre ++ [(p, d)]
          ∧ (∀ q ∈ pre, visitPath env q.1 q.2 = none)
          ∧ visitPath env p d = some e
          ∧ m = "Error uploading modules " ++ localDir ++ ": " ++ e) := by
  have h := runWalk_spec env (walkEntry localDir tree)
  cases hout : runWalk env (walkEntry localDir tree) with
  | mk v res =>
    rw [hout] at h
    obtain ⟨h1, h2, h3⟩ := h
    cases res with
    | none =>
        have hred : UploadLocalDirectory env localDir tree = (v, none) := by
          simp [UploadLocalDirectory, hout]
        rw [hred]
        exact ⟨h1, fun _ => h2 rfl, fun m hm => Option.noConfusion hm⟩
    | some e =>
        have hred : UploadLocalDirectory env localDir tree
            = (v, some ("Error uploading modules " ++ localDir ++ ": " ++ e)) := by
          simp [UploadLocalDirectory, hout]
        rw [hred]
        refine ⟨h1, ?_, ?_⟩
        · intro hnone
          exact Option.noConfusion hnone
        · intro m hm
          obtain ⟨pre, p, d, hsplit, hpre, hvisit⟩ := h3 e rfl
          exact ⟨pre, p, d, e, hsplit, hpre, hvisit, (Option.some.inj hm).symm⟩

/-- C6 (amended) evaluated on a concrete input: the failing upload of
`root/sub/b.txt` ends the traversal at that entry, every earlier entry
having succeeded, and the failure wraps the walk root and the cause. -/
theorem UploadLocalDirectory_fail_fast_witness :
    ∃ pre p d e, (UploadLocalDirectory envCex "root" treeCex).1 = pre ++ [(p, d)]
      ∧ (∀ q ∈ pre, visitPath envCex q.1 q.2 = none)
      ∧ visitPath envCex p d = some e
      ∧ "Error uploading modules root: Error uploading file: connection reset by peer"
          = "Error uploading modules " ++ "root" ++ ": " ++ e :=
  (UploadLocalDirectory_fail_fast envCex "root" treeCex).2.2
    "Error uploading modules root: Error uploading file: connection reset by peer"
    (by decide)

/-- C7: every entry the upload visits has a walk path extending the walk
root, and the remote path used for it is the fixed remote module root
joined with that walk path — so the entries of a local directory
`localDir` land under `RemoteModulePath/localDir/...`, the root's own
name nested under the remote root. -/
theorem upload_remote_paths_nested (env : UploadEnv) (localDir : String)
    (tree : FSEntry) :
    ∀ q ∈ (UploadLocalDirectory env localDir tree).1,
      ∃ rest, q.1 = localDir ++ rest
        ∧ entryRemotePath q.1 = RemoteModulePath ++ "/" ++ (localDir ++ rest) := by
  intro q hq
  rw [UploadLocalDirectory_fst env localDir tree] at hq
  have h1 := (runWalk_spec env (walkEntry localDir tree)).1
  rw [h1] at hq
  have hwalk : q ∈ walkEntry localDir tree := List.mem_of_mem_take hq
  obtain ⟨rest, hr⟩ := walkEntry_starts localDir tree q hwalk
  exact ⟨rest, hr, by rw [hr]; rfl⟩

/-- C7 evaluated on a concrete input: uploading a local directory named
`modules` nests its own name under the remote module root. -/
theorem upload_remote_paths_nested_witness :
    ∃ rest, (("modules", true) : String × Bool).1 = "modules" ++ rest
      ∧ entryRemotePath (("modules", true) : String × Bool).1
          = RemoteModulePath ++ "/" ++ ("modules" ++ rest) :=
  upload_remote_paths_nested envOk "modules" treeCex ("modules", true)
    (by decide)

/-- C8: the tool-installation command line and the configuration-run
command line start with the elevation marker `sudo ` exactly when
`prevent_sudo` is false, and when `prevent_sudo` is true neither command
line contains `sudo ` anywhere. -/
theorem commands_sudo_iff (b : Bool) :
    ((∃ r, installPuppetCommand b = "sudo " ++ r) ↔ b = false)
    ∧ ((∃ r, puppetRunCommand b = "sudo " ++ r) ↔ b = false)
    ∧ strHasSeg (installPuppetCommand true) "sudo " = false
    ∧ strHasSeg (puppetRunCommand true) "sudo " = false := by
  cases b with
  | false =>
      refine ⟨⟨fun _ => rfl, fun _ => ⟨"gem install puppet", by decide⟩⟩,
              ⟨fun _ => rfl, fun _ => ⟨"puppet --verbose ???", by decide⟩⟩,
              by decide, by decide⟩
  | true =>
      refine ⟨⟨fun hex => ?_, fun h => by cases h⟩,
              ⟨fun hex => ?_, fun h => by cases h⟩, by decide, by decide⟩
      · obtain ⟨r, hr⟩ := hex
        have hst := starts_of_eq_append _ _ _ hr
        rw [show installPuppetCommand true = "gem install puppet" from rfl] at hst
        exact absurd hst (by decide)
      · obtain ⟨r, hr⟩ := hex
        have hst := starts_of_eq_append _ _ _ hr
        rw [show puppetRunCommand true = "puppet --verbose ???" from rfl] at hst
        exact absurd hst (by decide)

/-- C8 evaluated on a concrete input: with `prevent_sudo` false the
install command is elevation-prefixed. -/
theorem commands_sudo_iff_witness :
    ∃ r, installPuppetCommand false = "sudo " ++ r :=
  (commands_sudo_iff false).1.mpr rfl

/-- C9: when the channel starts the remote `mkdir -p` successfully,
`CreateRemoteDirectory` returns success whatever exit status the remote
command reports: the code waits for completion but never inspects
`cmd.ExitStatus`, so a remotely failing directory creation is still
reported as success. -/
theorem CreateRemoteDirectory_ignores_exit_status (path : String) (es : Int) :
    CreateRemoteDirectory path none es = none := rfl
